import Mathlib

/-!
# Music player: playback controller, progress loop, duration probe, track filter

Shallow embedding of `src/player.go` and `src/main.go`.

* Handles (`*oto.Player`, `*io.PipeWriter`, `*io.PipeReader`, `context.CancelFunc`) are
  identified by the number of the session that created them; a `nil` handle is `none`.
* Every call on a handle is recorded in a trace of `Action`s, in program order.
* `time.Duration` is an `Int` count of nanoseconds, wrapped to 64 bits where the source
  multiplies.
* Log output is not part of the model.
-/

namespace MusicPlayer

/-! ## Data model (`player.go`, lines 22-37) -/

/-- Calls on the handles of a session and on the widgets, as they appear in the source. -/
inductive Action
  | pipeCreate (s : Nat)
  | newPlayer (s : Nat)
  | withCancel (s : Nat)
  | writerClose (s : Nat)
  | playerClose (s : Nat)
  | readerClose (s : Nat)
  | cancelCall (s : Nat)
  | goDecode (s : Nat)
  | sliderMax (seconds : ℚ)
  | durationLabel (text : String)
  | play (s : Nat)
  | goUpdater (s : Nat) (totalDuration : Int)
  | isPlaying (s : Nat) (result : Bool)
  | write (s : Nat)
  deriving DecidableEq, Repr

/-- The struct `playerControl`: three handles, each possibly nil. -/
structure playerControl where
  player : Option Nat
  writer : Option Nat
  cancel : Option Nat
  deriving DecidableEq, Repr

/-- The package-level variable `activePlayer` together with the trace of calls made so far. -/
structure World where
  activePlayer : Option playerControl
  trace : List Action
  deriving DecidableEq, Repr

/-- Append calls to the trace. -/
def World.emit (w : World) (as : List Action) : World :=
  { w with trace := w.trace ++ as }

/-! ## `stopPlayback` (`player.go`, lines 39-57) -/

/-- The function `stopPlayback`: under the mutex, when `activePlayer` is not nil, close the
writer if non-nil, close the player if non-nil, call cancel if non-nil, and clear
`activePlayer`. -/
def stopPlayback (w : World) : World :=
  match w.activePlayer with
  | some ap =>
    let w1 := match ap.writer with
      | some h => w.emit [Action.writerClose h]
      | none => w
    let w2 := match ap.player with
      | some h => w1.emit [Action.playerClose h]
      | none => w1
    let w3 := match ap.cancel with
      | some h => w2.emit [Action.cancelCall h]
      | none => w2
    { w3 with activePlayer := none }
  | none => w

/-- The calls made by a run: the part of the final trace after the initial trace. -/
def newCalls (before after : World) : List Action :=
  after.trace.drop before.trace.length

/-! ## Numbers of `player.go`

In the model of `player.go` a `float64` is the rational number it denotes and float
arithmetic is exact arithmetic. A conversion `int(x)` or `time.Duration(x)` of a float truncates toward zero; it
is modelled for values inside the range of `int64`, where Go defines it. The `int64`
multiplication by `time.Second` wraps modulo `2^64`. -/

/-- Two's complement wrap of an integer into the range of `int64`. -/
def wrap64 (x : Int) : Int :=
  (x + 2 ^ 63) % 2 ^ 64 - 2 ^ 63

/-- Conversion of a float to an integer type: the fraction is discarded. -/
def truncate (x : ℚ) : Int :=
  if 0 ≤ x then ⌊x⌋ else ⌈x⌉

/-- The constant `time.Second`, in nanoseconds. -/
def Second : Int := 1000000000

/-- The constant `time.Minute`, in nanoseconds. -/
def Minute : Int := 60 * Second

/-- The method `Duration.Seconds`. -/
def Seconds (d : Int) : ℚ := (d : ℚ) / (Second : ℚ)

/-- The method `Duration.Minutes`. -/
def Minutes (d : Int) : ℚ := (d : ℚ) / (Minute : ℚ)

/-! ## `fmt.Sprintf("%02d:%02d", _, _)`

The verb `%02d` as `fmt` implements it for an `int`: the decimal digits are produced from the
least significant one, zeros are added in front up to the width (one less for a negative
number), then the sign. -/

/-- The byte `'0' + d`. -/
def digitByte (d : Nat) : Char := Char.ofNat (48 + d)

/-- The digit loop `for u >= 10 { next := u / 10; buf[i] = '0' + u - next*10; u = next }`
followed by the last digit. The first argument bounds the number of iterations. -/
def fmtDigits : Nat → Nat → List Char → List Char
  | 0, u, buf => digitByte u :: buf
  | fuel + 1, u, buf =>
    if 10 ≤ u then fmtDigits fuel (u / 10) (digitByte (u - u / 10 * 10) :: buf)
    else digitByte u :: buf

/-- The padding loop `for prec > len(buf)-i { buf[i] = '0' }`. -/
def fmtZeros (prec : Nat) (buf : List Char) : List Char :=
  List.replicate (prec - buf.length) '0' ++ buf

/-- The verb `%02d` applied to an integer. -/
def fmtInteger02 (v : Int) : List Char :=
  if v < 0 then '-' :: fmtZeros 1 (fmtDigits v.natAbs v.natAbs [])
  else fmtZeros 2 (fmtDigits v.natAbs v.natAbs [])

/-- The call `fmt.Sprintf("%02d:%02d", a, b)`. -/
def sprintfMMSS (a b : Int) : String :=
  String.mk (fmtInteger02 a ++ ':' :: fmtInteger02 b)

/-! ## `float64` values in the listener

The listener of `main.go` computes with `float64` and `int`. A finite `float64` is a sign, a
mantissa and a binary exponent; the quotient of two such values is the exact quotient rounded
to 53 significant bits, to nearest, ties to even. Overflow and underflow of the exponent are
outside the model. -/

/-- A finite `float64`: the number `mant * 2 ^ exp`, negated when `neg` is set. -/
structure Float64 where
  neg : Bool
  mant : Nat
  exp : Int
  deriving DecidableEq, Repr

/-- The `float64` that holds the whole number `n`, for an `n` of at most 53 significant bits
(every `n` below `2 ^ 53`, and every power of two). -/
def Float64.ofNat (n : Nat) : Float64 := ⟨false, n, 0⟩

/-- The inner struct of `ffprobeOutput`. -/
structure ffprobeFormat where
  Duration : String
  deriving DecidableEq, Repr

/-- The struct `ffprobeOutput`. -/
structure ffprobeOutput where
  Format : ffprobeFormat
  deriving DecidableEq, Repr

/-- The three library calls of `getTrackDuration`: `ffmpeg.Probe`, `json.Unmarshal` into an
`ffprobeOutput`, and `strconv.ParseFloat(_, 64)`. Each returns a value or an error; the value
of `ParseFloat` is a finite number. -/
structure ProbeEnv where
  probe : String → Except String String
  unmarshal : String → Except String ffprobeOutput
  parseFloat : String → Except String ℚ

/-- The function `getTrackDuration`: the duration in nanoseconds and the error, `none` for
nil. -/
def getTrackDuration (env : ProbeEnv) (filename : String) : Int × Option String :=
  match env.probe filename with
  | .error err => (0, some err)
  | .ok data =>
    match env.unmarshal data with
    | .error err => (0, some err)
    | .ok probeOutput =>
      match env.parseFloat probeOutput.Format.Duration with
      | .error err => (0, some err)
      | .ok durationFloat => (wrap64 (truncate durationFloat * Second), none)

/-- The probe fails: the `ffprobe` process fails, or its output is not valid JSON, or the
duration field does not parse as a number. -/
def ProbeFails (env : ProbeEnv) (filename : String) : Prop :=
  (∃ err, env.probe filename = .error err) ∨
  (∃ data err, env.probe filename = .ok data ∧ env.unmarshal data = .error err) ∨
  (∃ data out err, env.probe filename = .ok data ∧ env.unmarshal data = .ok out ∧
    env.parseFloat out.Format.Duration = .error err)

/-! ## `startPlaybackGoroutine`, up to the launch of the two goroutines
(`player.go`, lines 83-167) -/

/-- Lines 100-111: create the pipe, the player and the cancel function of session `s` and
store them in `activePlayer` under the mutex. -/
def registerSession (s : Nat) (w : World) : World :=
  let w1 := w.emit [Action.pipeCreate s, Action.newPlayer s, Action.withCancel s]
  { w1 with activePlayer := some ⟨some s, some s, some s⟩ }

/-- The function `startPlaybackGoroutine` for session `s`, from its entry to the launch of
the UI updater: the error of `getTrackDuration` is only logged. -/
def startPlaybackGoroutine (env : ProbeEnv) (songToPlay : String) (s : Nat) (w : World) :
    World :=
  let duration := (getTrackDuration env songToPlay).1
  let w1 := registerSession s w
  let w2 := w1.emit [Action.goDecode s]
  let w3 := w2.emit [Action.sliderMax (Seconds duration)]
  let secondsModulo := (truncate (Seconds duration)).tmod 60
  let w4 := w3.emit [Action.durationLabel
    (sprintfMMSS (truncate (Minutes duration)) secondsModulo)]
  let w5 := w4.emit [Action.play s]
  w5.emit [Action.goUpdater s duration]

/-! ## The UI updater goroutine (`player.go`, lines 148-167) -/

/-- What the progress loop meets at the head of one iteration: the result of
`p.IsPlaying()`, whether the session's cancel function has been invoked by then, and the
value of `time.Since(startTime)` read in the body. -/
structure Poll where
  isPlaying : Bool
  cancelled : Bool
  elapsed : Int
  deriving DecidableEq, Repr

/-- The two values set in one iteration, `playbackValueBinding.Set(elapsed.Seconds())` and
`currentDurationBinding.Set(elapsed.Seconds())`. -/
structure Published where
  playbackValue : ℚ
  currentDuration : ℚ
  deriving DecidableEq, Repr

/-- The loop `for p.IsPlaying() { ... }` of the UI updater run against a list of polls: the
values it publishes, one entry for each iteration. -/
def progressLoop (totalDuration : Int) : List Poll → List Published
  | [] => []
  | p :: rest =>
    if p.isPlaying then
      let elapsed := if p.elapsed > totalDuration then totalDuration else p.elapsed
      ⟨Seconds elapsed, Seconds elapsed⟩ :: progressLoop totalDuration rest
    else []

/-- Four polls of a session of three seconds: the third sample is past the end, the fourth
poll finds the player stopped. -/
def samplePolls : List Poll :=
  [⟨true, false, 1000000000⟩, ⟨true, false, 2900000000⟩, ⟨true, false, 3100000000⟩,
    ⟨false, false, 3200000000⟩]

/-! ## The track filter `musicFilesRegex` (`main.go`, lines 30-42)

The syntax tree of the pattern and the matcher are those of `regexp`, restricted to the
operators the pattern uses. A path is matched rune by rune. -/

/-- Syntax trees of regular expressions: the empty match, a literal rune, a literal rune
under the flag `(?i)`, concatenation, alternation and `$` (end of text, as the flag `m` is
off). -/
inductive Regexp
  | emptyMatch
  | lit (r : Char)
  | litFold (r : Char)
  | cat (a b : Regexp)
  | alt (a b : Regexp)
  | endText
  deriving DecidableEq, Repr

/-- A rune `c` of the text matches the pattern rune `r` under `(?i)`: `c` is in the orbit of
`r` under `unicode.SimpleFold`. For an ASCII letter the orbit is the letter in both cases,
with the Kelvin sign U+212A added for `k` and the long s U+017F added for `s`; every other
ASCII rune is alone in its orbit. -/
def foldMatches (r c : Char) : Bool :=
  c = r
  || (97 ≤ r.toNat && r.toNat ≤ 122 && c.toNat + 32 = r.toNat)
  || (65 ≤ r.toNat && r.toNat ≤ 90 && c.toNat = r.toNat + 32)
  || ((r.toNat = 107 || r.toNat = 75) && c.toNat = 8490)
  || ((r.toNat = 115 || r.toNat = 83) && c.toNat = 383)

/-- All the ways the expression matches a prefix of the text: the list of the remainders. -/
def Regexp.run : Regexp → List Char → List (List Char)
  | .emptyMatch, cs => [cs]
  | .lit _, [] => []
  | .lit r, c :: cs => if c = r then [cs] else []
  | .litFold _, [] => []
  | .litFold r, c :: cs => if foldMatches r c then [cs] else []
  | .cat a b, cs => (a.run cs).flatMap b.run
  | .alt a b, cs => a.run cs ++ b.run cs
  | .endText, cs => if cs = [] then [[]] else []

/-- The method `MatchString`: the expression matches somewhere in the text. -/
def Regexp.MatchString (re : Regexp) (s : String) : Bool :=
  s.toList.tails.any (fun t => !(re.run t).isEmpty)

/-- A literal string under `(?i)`. -/
def foldString : List Char → Regexp
  | [] => .emptyMatch
  | r :: rs => .cat (.litFold r) (foldString rs)

/-- An alternation of literal strings under `(?i)`. -/
def foldAlternation : List Char → List (List Char) → Regexp
  | w, [] => foldString w
  | w, v :: vs => .alt (foldString w) (foldAlternation v vs)

/-- The expression compiled from
`\.(?i)(mp3|wav|flac|aac|ogg|wma|m4a|alac|aiff|pcm)$`. -/
def musicFilesRegex : Regexp :=
  .cat (.lit '.')
    (.cat
      (foldAlternation "mp3".toList
        ["wav".toList, "flac".toList, "aac".toList, "ogg".toList, "wma".toList,
          "m4a".toList, "alac".toList, "aiff".toList, "pcm".toList])
      .endText)

/-- The extensions named by the specification. -/
def specExtensions : List String :=
  ["mp3", "wav", "flac", "aac", "ogg", "wma", "m4a", "alac", "aiff", "pcm"]

/-- The filter of the specification: the path, with its letters in lower case, ends with a
dot followed by one of the extensions. -/
def specIsMusicFile (path : String) : Bool :=
  specExtensions.any (fun e => ('.' :: e.toList).isSuffixOf (path.toList.map Char.toLower))

/-- The runes of the pattern under `(?i)`: lower-case letters other than `k` and `s`, and
digits. -/
def PlainRune (r : Char) : Prop :=
  (97 ≤ r.toNat ∧ r.toNat ≤ 122 ∧ r.toNat ≠ 107 ∧ r.toNat ≠ 115) ∨
  (48 ≤ r.toNat ∧ r.toNat ≤ 57)

instance : DecidablePred PlainRune := fun r => by
  unfold PlainRune
  infer_instance

/-! ## The handler of the Play button (`main.go`, lines 99-112)

The handler runs `stopPlayback` and launches `startPlaybackGoroutine` in a new goroutine; the
goroutine stores its session in `activePlayer` later, when it reaches line 105. The
application state records the goroutines that were launched and have not registered yet. -/

/-- The state of the application: the controller, the number of goroutines launched so far
(the next session number) and the launched goroutines that have not reached line 105. -/
structure App where
  world : World
  launched : Nat
  pending : List Nat
  deriving DecidableEq, Repr

/-- The synchronous part of the handler: return when no song is selected, else run
`stopPlayback` and launch the goroutine of a new session. The reset of the slider binding
and the sleep of 100 ms between the two touch neither the controller nor a handle. -/
def playButton (selectedSong : String) (a : App) : App :=
  if selectedSong = "" then a
  else
    { world := stopPlayback a.world
      launched := a.launched + 1
      pending := a.pending ++ [a.launched] }

/-- The steps of the application: a click on Play, or a launched goroutine reaching the
registration of its session. -/
inductive Event
  | play (selectedSong : String)
  | register (s : Nat)
  deriving DecidableEq, Repr

/-- The goroutine of session `s` runs lines 100-111. -/
def App.register (s : Nat) (a : App) : App :=
  { a with world := registerSession s a.world, pending := a.pending.erase s }

/-- One step; a goroutine registers only when it was launched and has not registered. -/
def App.step (a : App) : Event → Option App
  | .play selectedSong => some (playButton selectedSong a)
  | .register s => if s ∈ a.pending then some (a.register s) else none

/-- A sequence of steps. -/
def App.run (a : App) : List Event → Option App
  | [] => some a
  | e :: es => (a.step e).bind (fun b => b.run es)

/-- The application at startup. -/
def App.init : App := ⟨⟨none, []⟩, 0, []⟩

/-- The schedule without overlap: each request is followed by the registration of its
session before the next request; `k` is the number of the first session. -/
def sequentialEvents : List String → Nat → List Event
  | [], _ => []
  | song :: rest, k => .play song :: .register k :: sequentialEvents rest (k + 1)

/-- Session `s` was started: its pipe and player exist. -/
def started (s : Nat) (w : World) : Prop := Action.pipeCreate s ∈ w.trace

/-- Session `s` is closed: its pipe writer and its player have both been closed. -/
def closed (s : Nat) (w : World) : Prop :=
  Action.writerClose s ∈ w.trace ∧ Action.playerClose s ∈ w.trace

/-- The state between requests of a schedule without overlap, after `k` requests. -/
def Settled (k : Nat) (a : App) : Prop :=
  a.launched = k ∧ a.pending = [] ∧
  (k = 0 → a.world.activePlayer = none) ∧
  (∀ j, k = j + 1 → a.world.activePlayer = some ⟨some j, some j, some j⟩) ∧
  (∀ i, started i a.world → i < k) ∧
  (∀ i, i + 1 < k → closed i a.world)

/-! ## The life of one session (`player.go`, lines 113-173, with `stopPlayback`)

After the setup the session is run by three goroutines: the body of
`startPlaybackGoroutine` (the wait loop of line 169 and the deferred cleanup of lines
113-118), the decode goroutine (lines 120-138) and the UI updater (lines 148-167). A Play
request may call `stopPlayback` at any moment. A life is an interleaving of their steps. -/

/-- The state of a session: the controller and the trace, and the position of each of the
three goroutines. `mainPc`: 0 in the wait loop, 1 loop left, 2 player closed, 3 writer
closed, 4 reader closed. `decodePc`: 0 `ffmpeg` running, 1 `Run` returned, 2 writer closed.
`updaterPc`: 0 in the loop, 1 loop left. -/
structure Life where
  world : World
  mainPc : Nat
  decodePc : Nat
  updaterPc : Nat
  deriving DecidableEq, Repr

/-- The steps of a life. -/
inductive LifeStep
  | mainIsPlaying (result : Bool)
  | mainDeferred
  | ffmpegWrite
  | ffmpegReturn (ok : Bool)
  | decodeClose
  | updaterIsPlaying (result : Bool)
  | stop
  deriving DecidableEq, Repr

/-- One step of the life of session `s`. `IsPlaying()` returns true only on a player that
has not been closed. -/
def Life.step (s : Nat) (l : Life) : LifeStep → Option Life
  | .mainIsPlaying result =>
    if l.mainPc = 0 ∧ (result = true → Action.playerClose s ∉ l.world.trace) then
      some { l with world := l.world.emit [Action.isPlaying s result]
                    mainPc := if result then 0 else 1 }
    else none
  | .mainDeferred =>
    if l.mainPc = 1 then
      some { l with world := l.world.emit [Action.playerClose s], mainPc := 2 }
    else if l.mainPc = 2 then
      some { l with world := l.world.emit [Action.writerClose s], mainPc := 3 }
    else if l.mainPc = 3 then
      some { l with world := l.world.emit [Action.readerClose s], mainPc := 4 }
    else none
  | .ffmpegWrite =>
    if l.decodePc = 0 then some { l with world := l.world.emit [Action.write s] } else none
  | .ffmpegReturn _ =>
    if l.decodePc = 0 then some { l with decodePc := 1 } else none
  | .decodeClose =>
    if l.decodePc = 1 then
      some { l with world := l.world.emit [Action.writerClose s], decodePc := 2 }
    else none
  | .updaterIsPlaying result =>
    if l.updaterPc = 0 ∧ (result = true → Action.playerClose s ∉ l.world.trace) then
      some { l with world := l.world.emit [Action.isPlaying s result]
                    updaterPc := if result then 0 else 1 }
    else none
  | .stop => some { l with world := stopPlayback l.world }

/-- A sequence of steps. -/
def Life.run (s : Nat) (l : Life) : List LifeStep → Option Life
  | [] => some l
  | x :: xs => (l.step s x).bind (fun l2 => l2.run s xs)

/-- The session right after the setup by `startPlaybackGoroutine`. -/
def Life.init (env : ProbeEnv) (songToPlay : String) (s : Nat) : Life :=
  ⟨startPlaybackGoroutine env songToPlay s ⟨none, []⟩, 0, 0, 0⟩

/-- The three goroutines of the session have returned. -/
def Life.finished (l : Life) : Bool :=
  l.mainPc = 4 && l.decodePc = 2 && l.updaterPc = 1

/-- A call on the player of session `s` comes after a call of its `Close` in the trace. -/
def playerUsedAfterClose (s : Nat) (tr : List Action) : Bool :=
  (tr.dropWhile (fun a => a != Action.playerClose s)).any
    (fun a => a == Action.isPlaying s true || a == Action.isPlaying s false ||
      a == Action.play s)

/-- A write on the pipe writer of session `s` comes after a call of its `Close`. -/
def writerUsedAfterClose (s : Nat) (tr : List Action) : Bool :=
  (tr.dropWhile (fun a => a != Action.writerClose s)).any (fun a => a == Action.write s)

/-- Natural completion: `ffmpeg` ends, the player drains, both loops end, cleanup. -/
def naturalLife : List LifeStep :=
  [.ffmpegWrite, .mainIsPlaying true, .updaterIsPlaying true, .ffmpegWrite,
    .ffmpegReturn true, .decodeClose, .mainIsPlaying false, .updaterIsPlaying false,
    .mainDeferred, .mainDeferred, .mainDeferred]

/-- An explicit `stopPlayback` during playback. -/
def stoppedLife : List LifeStep :=
  [.ffmpegWrite, .mainIsPlaying true, .updaterIsPlaying true, .stop, .ffmpegWrite,
    .ffmpegReturn false, .decodeClose, .mainIsPlaying false, .updaterIsPlaying false,
    .mainDeferred, .mainDeferred, .mainDeferred]

/-- A failure of `ffmpeg` before any audio is produced. -/
def failedLife : List LifeStep :=
  [.ffmpegReturn false, .decodeClose, .mainIsPlaying false, .updaterIsPlaying false,
    .mainDeferred, .mainDeferred, .mainDeferred]

/-- The number of `Close` calls the three resources have at the state `l`, derived from the
positions of the goroutines and from whether `stopPlayback` has cleared `activePlayer`. -/
def closeCounts (l : Life) : Nat × Nat × Nat :=
  let stops := if l.world.activePlayer = none then 1 else 0
  ((if 3 ≤ l.mainPc then 1 else 0) + (if 2 ≤ l.decodePc then 1 else 0) + stops,
   (if 4 ≤ l.mainPc then 1 else 0),
   (if 2 ≤ l.mainPc then 1 else 0) + stops)

/-- The invariant of a life of session `s`: `activePlayer` is empty or holds the session, and
the trace has the `Close` calls counted by `closeCounts`. -/
def LifeInv (s : Nat) (l : Life) : Prop :=
  (l.world.activePlayer = none ∨ l.world.activePlayer = some ⟨some s, some s, some s⟩) ∧
  l.world.trace.count (Action.writerClose s) = (closeCounts l).1 ∧
  l.world.trace.count (Action.readerClose s) = (closeCounts l).2.1 ∧
  l.world.trace.count (Action.playerClose s) = (closeCounts l).2.2

/-- An environment in which `ffprobe` reports the duration "125.9"; `ParseFloat` returns the
nearest `float64`. -/
def sampleEnv : ProbeEnv where
  probe := fun _ => .ok "duration=125.9"
  unmarshal := fun _ => .ok ⟨⟨"125.9"⟩⟩
  parseFloat := fun _ => .ok (4429712445983949 / 35184372088832)

/-- An environment in which `ffprobe` reports a duration of 18446744074 seconds. -/
def hugeEnv : ProbeEnv where
  probe := fun _ => .ok "duration=18446744074"
  unmarshal := fun _ => .ok ⟨⟨"18446744074"⟩⟩
  parseFloat := fun _ => .ok 18446744074

/-- An environment in which the `ffprobe` process fails. -/
def failingEnv : ProbeEnv where
  probe := fun _ => .error "exit status 1"
  unmarshal := fun _ => .ok ⟨⟨"0"⟩⟩
  parseFloat := fun _ => .ok 0

/-! ## Theorems about `stopPlayback` -/

theorem stopPlayback_some (ap : playerControl) (tr : List Action) :
    stopPlayback ⟨some ap, tr⟩ =
      ⟨none, tr ++ ((ap.writer.map Action.writerClose).toList ++
        ((ap.player.map Action.playerClose).toList ++
          (ap.cancel.map Action.cancelCall).toList))⟩ := by
  rcases ap with ⟨p, wr, c⟩
  cases p <;> cases wr <;> cases c <;> simp [stopPlayback, World.emit]

/-- C2: on a state with an active session, `stopPlayback` returns with `activePlayer` empty
and has made exactly these calls, in this order: the writer's `Close`, the player's `Close`,
the cancel function; each one is present exactly when the corresponding handle is non-nil. -/
theorem stopPlayback_active_session (ap : playerControl) (tr : List Action) :
    (stopPlayback ⟨some ap, tr⟩).activePlayer = none ∧
    newCalls ⟨some ap, tr⟩ (stopPlayback ⟨some ap, tr⟩) =
      (ap.writer.map Action.writerClose).toList ++
        (ap.player.map Action.playerClose).toList ++
          (ap.cancel.map Action.cancelCall).toList ∧
    (∀ h, Action.writerClose h ∈ newCalls ⟨some ap, tr⟩ (stopPlayback ⟨some ap, tr⟩) ↔
      ap.writer = some h) ∧
    (∀ h, Action.playerClose h ∈ newCalls ⟨some ap, tr⟩ (stopPlayback ⟨some ap, tr⟩) ↔
      ap.player = some h) ∧
    (∀ h, Action.cancelCall h ∈ newCalls ⟨some ap, tr⟩ (stopPlayback ⟨some ap, tr⟩) ↔
      ap.cancel = some h) := by
  rw [stopPlayback_some]
  rcases ap with ⟨p, wr, c⟩
  cases p <;> cases wr <;> cases c <;> simp [newCalls, eq_comm]

/-- C3: `stopPlayback` on a state without an active session makes no call and leaves the
state unchanged; hence from every state two calls in a row give the same state and the same
calls as one. -/
theorem stopPlayback_idempotent (w : World) (tr : List Action) :
    (stopPlayback ⟨none, tr⟩ = ⟨none, tr⟩ ∧ newCalls ⟨none, tr⟩ (stopPlayback ⟨none, tr⟩) = []) ∧
    stopPlayback (stopPlayback w) = stopPlayback w ∧
    newCalls w (stopPlayback (stopPlayback w)) = newCalls w (stopPlayback w) := by
  have h2 : stopPlayback (stopPlayback w) = stopPlayback w := by
    rcases w with ⟨ap, tr⟩
    cases ap with
    | none => simp [stopPlayback]
    | some ap => rw [stopPlayback_some]; simp [stopPlayback]
  refine ⟨?_, h2, by rw [h2]⟩
  simp [stopPlayback, newCalls]


theorem wrap64_of_inRange (x : Int) (h0 : 0 ≤ x) (h1 : x < 2 ^ 63) : wrap64 x = x := by
  unfold wrap64
  rw [Int.emod_eq_of_lt (by omega) (by omega)]
  omega

theorem truncate_of_nonneg (x : ℚ) (h : 0 ≤ x) : truncate x = ⌊x⌋ := by
  simp [truncate, h]

/-- C10 (amended): when the duration string parses to a number `d` with `0 ≤ d` and
`floor d ≤ 9223372036`, `getTrackDuration` returns `floor d` whole seconds and no error, and
this is not greater than `d` seconds. -/
theorem getTrackDuration_floor (env : ProbeEnv) (filename data : String) (out : ffprobeOutput)
    (d : ℚ) (h1 : env.probe filename = .ok data) (h2 : env.unmarshal data = .ok out)
    (h3 : env.parseFloat out.Format.Duration = .ok d) (h0 : 0 ≤ d)
    (hb : ⌊d⌋ ≤ 9223372036) :
    getTrackDuration env filename = (⌊d⌋ * Second, none) ∧
    Seconds (getTrackDuration env filename).1 = (⌊d⌋ : ℚ) ∧
    Seconds (getTrackDuration env filename).1 ≤ d := by
  have hf : 0 ≤ ⌊d⌋ := Int.floor_nonneg.mpr h0
  have hw : wrap64 (⌊d⌋ * Second) = ⌊d⌋ * Second := by
    apply wrap64_of_inRange
    · unfold Second; omega
    · unfold Second; omega
  have hg : getTrackDuration env filename = (⌊d⌋ * Second, none) := by
    simp only [getTrackDuration, h1, h2, h3, truncate_of_nonneg d h0, hw]
  have hs : Seconds (⌊d⌋ * Second) = (⌊d⌋ : ℚ) := by
    simp [Seconds, Second]
  refine ⟨hg, ?_, ?_⟩
  · rw [hg]; exact hs
  · rw [hg]; simp only [hs]; exact Int.floor_le d

theorem getTrackDuration_floor_witness :
    getTrackDuration sampleEnv "song.mp3" = (125 * Second, none) ∧
    Seconds (getTrackDuration sampleEnv "song.mp3").1 = 125 ∧
    Seconds (getTrackDuration sampleEnv "song.mp3").1 ≤ 4429712445983949 / 35184372088832 := by
  have h := getTrackDuration_floor sampleEnv "song.mp3" "duration=125.9" ⟨⟨"125.9"⟩⟩
    (4429712445983949 / 35184372088832) rfl rfl rfl (by norm_num)
    (by rw [Int.floor_le_iff]; norm_num)
  have hf : ⌊(4429712445983949 / 35184372088832 : ℚ)⌋ = 125 := by
    rw [Int.floor_eq_iff]; norm_num
  rw [hf] at h
  exact_mod_cast h

/-- C10 (counterexample): a duration of 18446744074 seconds parses to a non-negative number,
and `getTrackDuration` returns 290448384 ns, which is neither `floor d` seconds nor a whole
number of seconds. -/
theorem getTrackDuration_overflow :
    hugeEnv.parseFloat "18446744074" = .ok 18446744074 ∧
    (0 : ℚ) ≤ 18446744074 ∧
    getTrackDuration hugeEnv "huge.mp3" = (290448384, none) ∧
    (290448384 : Int) ≠ ⌊(18446744074 : ℚ)⌋ * Second ∧
    ¬ (Second ∣ (getTrackDuration hugeEnv "huge.mp3").1) := by
  have hg : getTrackDuration hugeEnv "huge.mp3" = (290448384, none) := by
    have ht : truncate (18446744074 : ℚ) = 18446744074 := by
      rw [truncate_of_nonneg _ (by norm_num)]
      exact Int.floor_ofNat _
    simp only [getTrackDuration, hugeEnv, ht]
    decide
  refine ⟨rfl, by norm_num, hg, ?_, ?_⟩
  · rw [Int.floor_ofNat]; decide
  · rw [hg]; decide

theorem getTrackDuration_of_fails (env : ProbeEnv) (filename : String)
    (h : ProbeFails env filename) : ∃ err, getTrackDuration env filename = (0, some err) := by
  rcases h with ⟨err, h1⟩ | ⟨data, err, h1, h2⟩ | ⟨data, out, err, h1, h2, h3⟩
  · exact ⟨err, by simp only [getTrackDuration, h1]⟩
  · exact ⟨err, by simp only [getTrackDuration, h1, h2]⟩
  · exact ⟨err, by simp only [getTrackDuration, h1, h2, h3]⟩

theorem sprintfMMSS_zero : sprintfMMSS 0 0 = "00:00" := by decide

/-- C8: whenever the probe fails, `getTrackDuration` returns the duration 0 with a non-nil
error, and `startPlaybackGoroutine` creates the pipe, the player and the cancel function,
registers the session, launches the decoder, starts the player and launches the progress
loop with total duration 0. -/
theorem startPlaybackGoroutine_probe_failure (env : ProbeEnv) (songToPlay : String) (s : Nat)
    (w : World) (h : ProbeFails env songToPlay) :
    (∃ err, getTrackDuration env songToPlay = (0, some err)) ∧
    (startPlaybackGoroutine env songToPlay s w).activePlayer =
      some ⟨some s, some s, some s⟩ ∧
    newCalls w (startPlaybackGoroutine env songToPlay s w) =
      [Action.pipeCreate s, Action.newPlayer s, Action.withCancel s, Action.goDecode s,
        Action.sliderMax 0, Action.durationLabel "00:00", Action.play s,
        Action.goUpdater s 0] := by
  obtain ⟨err, he⟩ := getTrackDuration_of_fails env songToPlay h
  refine ⟨⟨err, he⟩, ?_, ?_⟩
  · simp [startPlaybackGoroutine, registerSession, World.emit]
  · have h0 : truncate 0 = 0 := by simp [truncate]
    simp [startPlaybackGoroutine, registerSession, World.emit, newCalls, he, Seconds,
      Minutes, h0, sprintfMMSS_zero]

theorem startPlaybackGoroutine_probe_failure_witness :
    (∃ err, getTrackDuration failingEnv "song.mp3" = (0, some err)) ∧
    (startPlaybackGoroutine failingEnv "song.mp3" 0 ⟨none, []⟩).activePlayer =
      some ⟨some 0, some 0, some 0⟩ ∧
    newCalls ⟨none, []⟩ (startPlaybackGoroutine failingEnv "song.mp3" 0 ⟨none, []⟩) =
      [Action.pipeCreate 0, Action.newPlayer 0, Action.withCancel 0, Action.goDecode 0,
        Action.sliderMax 0, Action.durationLabel "00:00", Action.play 0,
        Action.goUpdater 0 0] :=
  startPlaybackGoroutine_probe_failure failingEnv "song.mp3" 0 ⟨none, []⟩
    (Or.inl ⟨"exit status 1", rfl⟩)

/-! ## Theorems about the progress loop -/

theorem Seconds_mono {a b : Int} (h : a ≤ b) : Seconds a ≤ Seconds b := by
  unfold Seconds Second
  have : (a : ℚ) ≤ (b : ℚ) := by exact_mod_cast h
  apply div_le_div_of_nonneg_right this
  norm_num

theorem progressLoop_eq_map (T : Int) (polls : List Poll) :
    progressLoop T polls =
      (polls.takeWhile (fun p => p.isPlaying)).map
        (fun p => ⟨Seconds (min p.elapsed T), Seconds (min p.elapsed T)⟩) := by
  induction polls with
  | nil => rfl
  | cons p rest ih =>
    by_cases hp : p.isPlaying = true
    · have hm : (if p.elapsed > T then T else p.elapsed) = min p.elapsed T := by
        by_cases h : p.elapsed > T
        · simp [h, min_eq_right (le_of_lt h)]
        · simp [h, min_eq_left (not_lt.mp h)]
      simp [progressLoop, hp, hm, ih]
    · simp [progressLoop, hp]

/-- C5: for a total duration `T` and non-decreasing samples of the elapsed time, each value
the progress loop publishes is `min(sample, T)`; the published values are non-decreasing and
none exceeds `T`. -/
theorem progressLoop_clamped_monotone (T : Int) (polls : List Poll)
    (hmono : (polls.map (fun p => p.elapsed)).Pairwise (fun a b => a ≤ b)) :
    progressLoop T polls =
      (polls.takeWhile (fun p => p.isPlaying)).map
        (fun p => ⟨Seconds (min p.elapsed T), Seconds (min p.elapsed T)⟩) ∧
    ((progressLoop T polls).map (fun v => v.playbackValue)).Pairwise (fun a b => a ≤ b) ∧
    ((progressLoop T polls).map (fun v => v.currentDuration)).Pairwise (fun a b => a ≤ b) ∧
    ∀ v ∈ progressLoop T polls, v.playbackValue ≤ Seconds T ∧ v.currentDuration ≤ Seconds T := by
  have hsub : List.Sublist (polls.takeWhile (fun p => p.isPlaying)) polls :=
    List.takeWhile_sublist _
  have hpw : (polls.takeWhile (fun p => p.isPlaying)).Pairwise
      (fun a b => a.elapsed ≤ b.elapsed) :=
    (List.pairwise_map.mp hmono).sublist hsub
  have hq : ((polls.takeWhile (fun p => p.isPlaying)).map
      (fun p => Seconds (min p.elapsed T))).Pairwise (fun a b => a ≤ b) := by
    rw [List.pairwise_map]
    exact hpw.imp (fun h => Seconds_mono (min_le_min_right T h))
  rw [progressLoop_eq_map]
  refine ⟨rfl, ?_, ?_, ?_⟩
  · simpa [List.map_map, Function.comp_def] using hq
  · simpa [List.map_map, Function.comp_def] using hq
  · intro v hv
    obtain ⟨p, -, rfl⟩ := List.mem_map.mp hv
    exact ⟨Seconds_mono (min_le_right _ _), Seconds_mono (min_le_right _ _)⟩

theorem progressLoop_clamped_monotone_witness :
    progressLoop 3000000000 samplePolls =
      [⟨Seconds 1000000000, Seconds 1000000000⟩, ⟨Seconds 2900000000, Seconds 2900000000⟩,
        ⟨Seconds 3000000000, Seconds 3000000000⟩] ∧
    ((progressLoop 3000000000 samplePolls).map (fun v => v.playbackValue)).Pairwise
      (fun a b => a ≤ b) := by
  have h := progressLoop_clamped_monotone 3000000000 samplePolls (by decide)
  refine ⟨?_, h.2.1⟩
  rw [h.1]
  simp [samplePolls]

/-! ## Theorems about the track filter -/

theorem toNat_ofNat_small (n : Nat) (h : n < 55296) : (Char.ofNat n).toNat = n := by
  have hv : n.isValidChar := Or.inl h
  simp only [Char.ofNat, hv, Char.ofNatAux, Char.toNat, dite_true]
  show (UInt32.ofNat' n _).toNat = n
  simp [UInt32.toNat, UInt32.ofNat']

theorem char_eq_of_toNat_eq {a b : Char} (h : a.toNat = b.toNat) : a = b := by
  rw [← Char.ofNat_toNat a, ← Char.ofNat_toNat b, h]

theorem toLower_eq_iff (c r : Char) :
    c.toLower = r ↔
      (c = r ∧ ¬ (65 ≤ c.toNat ∧ c.toNat ≤ 90)) ∨
      (65 ≤ c.toNat ∧ c.toNat ≤ 90 ∧ c.toNat + 32 = r.toNat) := by
  unfold Char.toLower
  by_cases h : c.toNat ≥ 65 ∧ c.toNat ≤ 90
  · simp only [h, and_self, if_true, not_true, and_false, false_or, true_and]
    constructor
    · intro hr
      rw [← hr, toNat_ofNat_small _ (by omega)]
    · intro hr
      apply char_eq_of_toNat_eq
      rw [toNat_ofNat_small _ (by omega), hr]
  · have h2 : ¬ (65 ≤ c.toNat ∧ c.toNat ≤ 90) := h
    rw [if_neg h]
    constructor
    · intro hr
      exact Or.inl ⟨hr, h2⟩
    · rintro (⟨hr, -⟩ | ⟨h3, h4, -⟩)
      · exact hr
      · exact absurd ⟨h3, h4⟩ h2

theorem foldMatches_iff_toLower (r c : Char) (hr : PlainRune r) :
    foldMatches r c = true ↔ c.toLower = r := by
  rw [toLower_eq_iff]
  simp only [foldMatches, Bool.or_eq_true, Bool.and_eq_true, decide_eq_true_eq]
  constructor
  · rintro ((((h | h) | h) | h) | h)
    · subst h
      left
      refine ⟨rfl, ?_⟩
      rcases hr with hr | hr <;> omega
    · right; omega
    · rcases hr with hr | hr <;> omega
    · rcases hr with hr | hr <;> omega
    · rcases hr with hr | hr <;> omega
  · rintro (⟨h, -⟩ | ⟨h1, h2, h3⟩)
    · exact Or.inl (Or.inl (Or.inl (Or.inl h)))
    · refine Or.inl (Or.inl (Or.inl (Or.inr ⟨⟨?_, ?_⟩, h3⟩))) <;> omega

theorem run_foldString (w : List Char) (hw : ∀ r ∈ w, PlainRune r) :
    ∀ (t rem : List Char),
      rem ∈ (foldString w).run t ↔ ∃ u, t = u ++ rem ∧ u.map Char.toLower = w := by
  induction w with
  | nil =>
    intro t rem
    simp only [foldString, Regexp.run, List.mem_singleton, List.map_eq_nil_iff]
    constructor
    · intro h; exact ⟨[], by simp [h], rfl⟩
    · rintro ⟨u, h1, h2⟩; subst h2; simpa using h1.symm
  | cons r rs ih =>
    intro t rem
    have hr : PlainRune r := hw r (List.mem_cons_self _ _)
    have ih2 := ih (fun x hx => hw x (List.mem_cons_of_mem _ hx))
    cases t with
    | nil =>
      simp only [foldString, Regexp.run, List.flatMap_nil, List.not_mem_nil, false_iff]
      rintro ⟨u, h1, h2⟩
      have : u = [] := by
        cases u with
        | nil => rfl
        | cons a b => simp at h1
      subst this
      simp at h2
    | cons c cs =>
      simp only [foldString, Regexp.run]
      by_cases hc : foldMatches r c = true
      · simp only [hc, if_true, List.flatMap_cons, List.flatMap_nil, List.append_nil, ih2]
        have hc2 := (foldMatches_iff_toLower r c hr).mp hc
        constructor
        · rintro ⟨u, h1, h2⟩
          exact ⟨c :: u, by simp [h1], by simp [hc2, h2]⟩
        · rintro ⟨u, h1, h2⟩
          cases u with
          | nil => simp at h2
          | cons a b =>
            simp only [List.cons_append, List.cons.injEq] at h1
            simp only [List.map_cons, List.cons.injEq] at h2
            exact ⟨b, h1.2, h2.2⟩
      · simp only [hc, Bool.false_eq_true, if_false, List.flatMap_nil, List.not_mem_nil,
          false_iff]
        rintro ⟨u, h1, h2⟩
        cases u with
        | nil => simp at h2
        | cons a b =>
          simp only [List.cons_append, List.cons.injEq] at h1
          simp only [List.map_cons, List.cons.injEq] at h2
          apply hc
          rw [foldMatches_iff_toLower r c hr, h1.1]
          exact h2.1

theorem run_foldAlternation (vs : List (List Char)) :
    ∀ (w : List Char), (∀ e ∈ w :: vs, ∀ r ∈ e, PlainRune r) → ∀ (t rem : List Char),
      rem ∈ (foldAlternation w vs).run t ↔
        ∃ e ∈ w :: vs, ∃ u, t = u ++ rem ∧ u.map Char.toLower = e := by
  induction vs with
  | nil =>
    intro w hw t rem
    simp only [foldAlternation, List.mem_singleton, exists_eq_left]
    exact run_foldString w (hw w (List.mem_cons_self _ _)) t rem
  | cons v vs ih =>
    intro w hw t rem
    have h1 := run_foldString w (hw w (List.mem_cons_self _ _)) t rem
    have h2 := ih v (fun e he => hw e (List.mem_cons_of_mem _ he)) t rem
    simp only [foldAlternation, Regexp.run, List.mem_append, h1, h2]
    constructor
    · rintro (h | ⟨e, he, h⟩)
      · exact ⟨w, List.mem_cons_self _ _, h⟩
      · exact ⟨e, List.mem_cons_of_mem _ he, h⟩
    · rintro ⟨e, he, h⟩
      rcases List.mem_cons.mp he with rfl | he
      · exact Or.inl h
      · exact Or.inr ⟨e, he, h⟩

theorem musicFilesRegex_run_ne_nil (t : List Char) :
    (musicFilesRegex.run t).isEmpty = false ↔
      ∃ e ∈ specExtensions, ∃ u, t = '.' :: u ∧ u.map Char.toLower = e.toList := by
  have hplain : ∀ e ∈ "mp3".toList ::
      ["wav".toList, "flac".toList, "aac".toList, "ogg".toList, "wma".toList,
        "m4a".toList, "alac".toList, "aiff".toList, "pcm".toList],
      ∀ r ∈ e, PlainRune r := by decide
  have hA := run_foldAlternation _ _ hplain
  have hexts : ∀ (P : List Char → Prop),
      (∃ e ∈ "mp3".toList ::
        ["wav".toList, "flac".toList, "aac".toList, "ogg".toList, "wma".toList,
          "m4a".toList, "alac".toList, "aiff".toList, "pcm".toList], P e) ↔
      ∃ e ∈ specExtensions, P e.toList := by
    intro P
    simp [specExtensions]
  have hne : ∀ l : List (List Char), l.isEmpty = false ↔ ∃ x, x ∈ l := by
    intro l
    cases l with
    | nil => simp
    | cons a b => simp
  rw [hne, ← hexts (fun e => ∃ u, t = '.' :: u ∧ u.map Char.toLower = e)]
  cases t with
  | nil => simp [musicFilesRegex, Regexp.run]
  | cons c cs =>
    by_cases hc : c = '.'
    · subst hc
      simp only [musicFilesRegex, Regexp.run, if_true, List.flatMap_cons, List.flatMap_nil,
        List.append_nil, List.mem_flatMap, List.cons.injEq, true_and]
      constructor
      · rintro ⟨x, m, hm, hx⟩
        by_cases hm2 : m = []
        · subst hm2
          obtain ⟨e, he, u, h1, h2⟩ := (hA cs []).mp hm
          exact ⟨e, he, u, by simpa using h1, h2⟩
        · simp [hm2] at hx
      · rintro ⟨e, he, u, h1, h2⟩
        refine ⟨[], [], (hA cs []).mpr ⟨e, he, u, by simpa using h1, h2⟩, by simp⟩
    · simp only [musicFilesRegex, Regexp.run, hc, if_false, List.flatMap_nil,
        List.not_mem_nil, exists_false, false_iff]
      rintro ⟨e, -, u, h1, -⟩
      simp only [List.cons.injEq] at h1
      exact hc h1.1

theorem toLower_eq_dot (c : Char) (h : c.toLower = '.') : c = '.' := by
  rcases (toLower_eq_iff c '.').mp h with ⟨h1, -⟩ | ⟨h1, h2, h3⟩
  · exact h1
  · have : ('.' : Char).toNat = 46 := by decide
    omega

theorem MatchString_musicFilesRegex (path : String) :
    musicFilesRegex.MatchString path = specIsMusicFile path := by
  rw [Bool.eq_iff_iff]
  simp only [Regexp.MatchString, specIsMusicFile, List.any_eq_true, List.mem_tails,
    Bool.not_eq_true', musicFilesRegex_run_ne_nil, List.isSuffixOf_iff_suffix]
  constructor
  · rintro ⟨t, ⟨pre, hpre⟩, e, he, u, h1, h2⟩
    refine ⟨e, he, pre.map Char.toLower, ?_⟩
    rw [← hpre, h1, List.map_append, List.map_cons, h2]
    rfl
  · rintro ⟨e, he, pre, hpre⟩
    obtain ⟨l1, l2, h1, -, h3⟩ := List.map_eq_append_iff.mp hpre.symm
    obtain ⟨c, u, h4, h5, h6⟩ := List.map_eq_cons_iff.mp h3
    have hc := toLower_eq_dot c h5
    subst hc
    exact ⟨l2, ⟨l1, h1.symm⟩, e, he, u, h4, h6⟩

/-- C7: the filter accepts a path exactly when the path, compared without regard to case,
ends with a dot followed by one of mp3, wav, flac, aac, ogg, wma, m4a, alac, aiff, pcm;
paths ending in .MP3, .Flac, .wav are accepted, paths ending in .txt, .mp4 are rejected. -/
theorem musicFilesRegex_filter (path : String) :
    (musicFilesRegex.MatchString path = true ↔
      ∃ e ∈ specExtensions, ('.' :: e.toList) <:+ path.toList.map Char.toLower) ∧
    musicFilesRegex.MatchString "E:/Download/Music/a/Song.MP3" = true ∧
    musicFilesRegex.MatchString "E:/Download/Music/Track 01.Flac" = true ∧
    musicFilesRegex.MatchString "E:/Download/Music/x.wav" = true ∧
    musicFilesRegex.MatchString "E:/Download/Music/notes.txt" = false ∧
    musicFilesRegex.MatchString "E:/Download/Music/clip.mp4" = false := by
  refine ⟨?_, by decide, by decide, by decide, by decide, by decide⟩
  rw [MatchString_musicFilesRegex]
  simp only [specIsMusicFile, List.any_eq_true, List.isSuffixOf_iff_suffix]

/-! ## Theorems about the Play handler -/

/-- C1 (counterexample): after one request the controller holds no session; and when two
requests are made before the first goroutine registers, the first session is started, never
closed, and the controller holds the second one. -/
theorem play_overlap_counterexample :
    (App.init.run [.play "a.mp3"]).map (fun a => a.world.activePlayer) = some none ∧
    (∃ a, App.init.run [.play "a.mp3", .play "b.mp3", .register 0, .register 1] = some a ∧
      a.world.activePlayer = some ⟨some 1, some 1, some 1⟩ ∧
      started 0 a.world ∧
      Action.writerClose 0 ∉ a.world.trace ∧ Action.playerClose 0 ∉ a.world.trace) := by
  refine ⟨by decide, _, rfl, by decide, ?_, by decide, by decide⟩
  unfold started
  decide

theorem settled_step (k : Nat) (a : App) (song : String) (hs : song ≠ "")
    (h : Settled k a) :
    (playButton song a).world.activePlayer = none ∧
    (playButton song a).step (.register k) = some ((playButton song a).register k) ∧
    Settled (k + 1) ((playButton song a).register k) := by
  obtain ⟨h1, h2, h3, h4, h5, h6⟩ := h
  rcases a with ⟨⟨ap, tr⟩, launched, pending⟩
  simp only at h1 h2 h3 h4 h5 h6
  subst h1 h2
  cases launched with
  | zero =>
    have hap := h3 rfl
    subst hap
    refine ⟨?_, ?_, ?_⟩
    · simp [playButton, hs, stopPlayback]
    · simp [App.step, playButton, hs]
    · refine ⟨?_, ?_, ?_, ?_, ?_, ?_⟩
      · simp [App.register, playButton, hs]
      · simp [App.register, playButton, hs]
      · intro h; omega
      · intro j hj
        have : j = 0 := by omega
        subst this
        simp [App.register, registerSession, World.emit]
      · intro i hi
        simp only [started, App.register, playButton, hs, if_false, stopPlayback,
          registerSession, World.emit, List.mem_append, List.mem_cons,
          Action.pipeCreate.injEq, reduceCtorEq, or_false, List.not_mem_nil] at hi
        rcases hi with hi | hi
        · have := h5 i hi; omega
        · omega
      · intro i hi; omega
  | succ j =>
    have hap := h4 j rfl
    subst hap
    refine ⟨?_, ?_, ?_⟩
    · simp [playButton, hs, stopPlayback_some]
    · simp [App.step, playButton, hs]
    · refine ⟨?_, ?_, ?_, ?_, ?_, ?_⟩
      · simp [App.register, playButton, hs]
      · simp [App.register, playButton, hs]
      · intro h; omega
      · intro i hi
        have : i = j + 1 := by omega
        subst this
        simp [App.register, registerSession, World.emit]
      · intro i hi
        simp only [started, App.register, playButton, hs, if_false, stopPlayback_some,
          registerSession, World.emit, List.mem_append, List.mem_cons,
          Action.pipeCreate.injEq, reduceCtorEq, or_false, List.not_mem_nil,
          Option.map_some', Option.toList_some, false_or] at hi
        rcases hi with hi | hi
        · have := h5 i hi; omega
        · omega
      · intro i hi
        by_cases hij : i = j
        · subst hij
          simp [closed, App.register, playButton, hs, stopPlayback_some, registerSession,
            World.emit]
        · have hc := h6 i (by omega)
          obtain ⟨hc1, hc2⟩ := hc
          simp only at hc1 hc2
          simp [closed, App.register, playButton, hs, stopPlayback_some, registerSession,
            World.emit, hc1, hc2]

theorem settled_play_closed (k : Nat) (a : App) (song : String) (hs : song ≠ "")
    (h : Settled k a) (i : Nat) (hi : started i (playButton song a).world) :
    closed i (playButton song a).world := by
  obtain ⟨h1, h2, h3, h4, h5, h6⟩ := h
  rcases a with ⟨⟨ap, tr⟩, launched, pending⟩
  simp only at h1 h2 h3 h4 h5 h6
  subst h1 h2
  cases launched with
  | zero =>
    have hap := h3 rfl
    subst hap
    simp only [started, playButton, hs, if_false, stopPlayback] at hi
    have := h5 i hi
    omega
  | succ j =>
    have hap := h4 j rfl
    subst hap
    simp only [started, playButton, hs, if_false, stopPlayback_some, List.mem_append,
      Option.map_some', Option.toList_some, List.mem_cons, reduceCtorEq, List.not_mem_nil,
      or_false] at hi
    have hlt := h5 i hi
    by_cases hij : i = j
    · subst hij
      simp [closed, playButton, hs, stopPlayback_some]
    · obtain ⟨hc1, hc2⟩ := h6 i (by omega)
      simp only at hc1 hc2
      simp [closed, playButton, hs, stopPlayback_some, hc1, hc2]

theorem App.run_append (a : App) (xs ys : List Event) :
    a.run (xs ++ ys) = (a.run xs).bind (fun b => b.run ys) := by
  induction xs generalizing a with
  | nil => simp [App.run]
  | cons x xs ih =>
    simp only [List.cons_append, App.run]
    cases a.step x with
    | none => rfl
    | some b => simp [ih]

theorem run_sequentialEvents (songs : List String) :
    ∀ (k : Nat) (a : App), Settled k a → (∀ x ∈ songs, x ≠ "") →
      ∃ b, a.run (sequentialEvents songs k) = some b ∧ Settled (k + songs.length) b := by
  induction songs with
  | nil =>
    intro k a h _
    exact ⟨a, rfl, by simpa using h⟩
  | cons song rest ih =>
    intro k a h hs
    obtain ⟨-, h2, h3⟩ := settled_step k a song (hs song (List.mem_cons_self _ _)) h
    obtain ⟨b, hb1, hb2⟩ := ih (k + 1) _ h3 (fun x hx => hs x (List.mem_cons_of_mem _ hx))
    refine ⟨b, ?_, ?_⟩
    · have hp : a.step (.play song) = some (playButton song a) := rfl
      simp only [sequentialEvents, App.run, hp, h2, Option.some_bind]
      exact hb1
    · have : k + (song :: rest).length = k + 1 + rest.length := by
        simp only [List.length_cons]; omega
      rw [this]
      exact hb2

theorem settled_init : Settled 0 App.init := by
  refine ⟨rfl, rfl, fun _ => rfl, ?_, ?_, ?_⟩
  · intro j hj; omega
  · intro i hi; simp [started, App.init] at hi
  · intro i hi; omega

/-- C1 (amended): when every request is made after the session of the request before it has
registered, then once the synchronous part of the last request has returned the controller
holds no session and every session started so far has its pipe writer and its player closed;
and once the session of the last request has registered, the controller holds exactly that
session and every session started earlier has its pipe writer and its player closed. -/
theorem sequential_requests_one_session (songs : List String) (song : String)
    (hs : ∀ x ∈ songs, x ≠ "") (hsong : song ≠ "") :
    ∃ a b, App.init.run (sequentialEvents songs 0 ++ [.play song]) = some a ∧
      a.world.activePlayer = none ∧
      (∀ i, started i a.world → closed i a.world) ∧
      a.step (.register songs.length) = some b ∧
      b.world.activePlayer =
        some ⟨some songs.length, some songs.length, some songs.length⟩ ∧
      started songs.length b.world ∧
      (∀ i, started i b.world → i ≠ songs.length → closed i b.world) := by
  obtain ⟨c, hc1, hc2⟩ := run_sequentialEvents songs 0 App.init settled_init hs
  rw [Nat.zero_add] at hc2
  obtain ⟨h1, h2, h3⟩ := settled_step songs.length c song hsong hc2
  refine ⟨playButton song c, (playButton song c).register songs.length, ?_, h1, ?_, h2, ?_,
    ?_, ?_⟩
  · rw [App.run_append, hc1]
    simp [App.run, App.step]
  · exact settled_play_closed songs.length c song hsong hc2
  · exact h3.2.2.2.1 songs.length rfl
  · simp [started, App.register, registerSession, World.emit]
  · intro i hi hne
    have hlt := h3.2.2.2.2.1 i hi
    exact h3.2.2.2.2.2 i (by omega)

theorem sequential_requests_one_session_witness :
    ∃ a b, App.init.run (sequentialEvents ["a.mp3", "b.mp3"] 0 ++ [.play "c.mp3"]) = some a ∧
      a.world.activePlayer = none ∧
      (∀ i, started i a.world → closed i a.world) ∧
      a.step (.register 2) = some b ∧
      b.world.activePlayer = some ⟨some 2, some 2, some 2⟩ ∧
      started 2 b.world ∧
      (∀ i, started i b.world → i ≠ 2 → closed i b.world) :=
  sequential_requests_one_session ["a.mp3", "b.mp3"] "c.mp3" (by decide) (by decide)

/-! ## Theorems about the life of a session -/

/-- C4 (counterexample): on natural completion the pipe writer receives two `Close` calls;
on an explicit stop during playback it receives three and the player two, `IsPlaying` is
called on the player after its `Close`, and `ffmpeg` writes to the writer after its
`Close`. -/
theorem session_close_counterexample :
    ((Life.init sampleEnv "song.mp3" 0).run 0 naturalLife).map
        (fun l => (l.finished, l.world.trace.count (Action.writerClose 0))) =
      some (true, 2) ∧
    ((Life.init sampleEnv "song.mp3" 0).run 0 stoppedLife).map
        (fun l => (l.finished, l.world.trace.count (Action.writerClose 0),
          l.world.trace.count (Action.playerClose 0),
          playerUsedAfterClose 0 l.world.trace, writerUsedAfterClose 0 l.world.trace)) =
      some (true, 3, 2, true, true) := by
  constructor <;> decide

theorem lifeInv_init (env : ProbeEnv) (songToPlay : String) (s : Nat) :
    LifeInv s (Life.init env songToPlay s) := by
  simp [LifeInv, Life.init, closeCounts, startPlaybackGoroutine, registerSession, World.emit]

theorem lifeInv_emit (s : Nat) (l : Life) (a : Action) (m d u : Nat)
    (h : LifeInv s l)
    (hw : (if a = Action.writerClose s then 1 else 0) +
      ((if 3 ≤ l.mainPc then 1 else 0) + (if 2 ≤ l.decodePc then 1 else 0)) =
      (if 3 ≤ m then 1 else 0) + (if 2 ≤ d then 1 else 0))
    (hr : (if a = Action.readerClose s then 1 else 0) + (if 4 ≤ l.mainPc then 1 else 0) =
      (if 4 ≤ m then 1 else 0))
    (hp : (if a = Action.playerClose s then 1 else 0) + (if 2 ≤ l.mainPc then 1 else 0) =
      (if 2 ≤ m then 1 else 0)) :
    LifeInv s ⟨l.world.emit [a], m, d, u⟩ := by
  obtain ⟨h1, h2, h3, h4⟩ := h
  refine ⟨h1, ?_, ?_, ?_⟩
  · simp only [World.emit, List.count_append, h2, closeCounts, List.count_singleton, beq_iff_eq]
    omega
  · simp only [World.emit, List.count_append, h3, closeCounts, List.count_singleton, beq_iff_eq]
    omega
  · simp only [World.emit, List.count_append, h4, closeCounts, List.count_singleton, beq_iff_eq]
    omega

theorem lifeInv_stop (s : Nat) (l : Life) (h : LifeInv s l) :
    LifeInv s { l with world := stopPlayback l.world } := by
  obtain ⟨h1, h2, h3, h4⟩ := h
  rcases l with ⟨⟨ap, tr⟩, m, d, u⟩
  simp only at h1
  rcases h1 with h1 | h1
  · subst h1
    exact ⟨Or.inl rfl, h2, h3, h4⟩
  · subst h1
    simp only [closeCounts, reduceCtorEq, if_false, Nat.add_zero] at h2 h3 h4
    refine ⟨Or.inl ?_, ?_, ?_, ?_⟩
    · simp [stopPlayback_some]
    · simp [stopPlayback_some, closeCounts, List.count_append, h2]
    · simp [stopPlayback_some, closeCounts, List.count_append, h3]
    · simp [stopPlayback_some, closeCounts, List.count_append, h4]

theorem lifeInv_step (s : Nat) (l l2 : Life) (x : LifeStep) (h : LifeInv s l)
    (hx : l.step s x = some l2) : LifeInv s l2 := by
  cases x with
  | mainIsPlaying result =>
    simp only [Life.step] at hx
    split at hx
    · rename_i hc
      injection hx with hx
      subst hx
      apply lifeInv_emit s l _ _ _ _ h
      · cases result <;> simp [hc.1]
      · cases result <;> simp [hc.1]
      · cases result <;> simp [hc.1]
    · exact absurd hx (by simp)
  | mainDeferred =>
    simp only [Life.step] at hx
    split at hx
    · rename_i hc
      injection hx with hx
      subst hx
      apply lifeInv_emit s l _ _ _ _ h <;> simp [hc]
    · split at hx
      · rename_i hc
        injection hx with hx
        subst hx
        apply lifeInv_emit s l _ _ _ _ h <;> simp [hc]
      · split at hx
        · rename_i hc
          injection hx with hx
          subst hx
          apply lifeInv_emit s l _ _ _ _ h <;> simp [hc]
        · exact absurd hx (by simp)
  | ffmpegWrite =>
    simp only [Life.step] at hx
    split at hx
    · injection hx with hx
      subst hx
      apply lifeInv_emit s l _ _ _ _ h <;> simp
    · exact absurd hx (by simp)
  | ffmpegReturn ok =>
    simp only [Life.step] at hx
    split at hx
    · rename_i hc
      injection hx with hx
      subst hx
      obtain ⟨h1, h2, h3, h4⟩ := h
      refine ⟨h1, ?_, h3, h4⟩
      simp only [h2, closeCounts, hc]
      simp
    · exact absurd hx (by simp)
  | decodeClose =>
    simp only [Life.step] at hx
    split at hx
    · rename_i hc
      injection hx with hx
      subst hx
      apply lifeInv_emit s l _ _ _ _ h
      · simp only [hc, if_true]; simp; omega
      · simp
      · simp
    · exact absurd hx (by simp)
  | updaterIsPlaying result =>
    simp only [Life.step] at hx
    split at hx
    · injection hx with hx
      subst hx
      apply lifeInv_emit s l _ _ _ _ h <;> simp
    · exact absurd hx (by simp)
  | stop =>
    simp only [Life.step] at hx
    injection hx with hx
    subst hx
    exact lifeInv_stop s l h

theorem lifeInv_run (s : Nat) (steps : List LifeStep) :
    ∀ (l l2 : Life), LifeInv s l → l.run s steps = some l2 → LifeInv s l2 := by
  induction steps with
  | nil =>
    intro l l2 h hr
    simp only [Life.run, Option.some.injEq] at hr
    subst hr
    exact h
  | cons x xs ih =>
    intro l l2 h hr
    simp only [Life.run] at hr
    cases hx : l.step s x with
    | none => simp [hx] at hr
    | some l1 =>
      simp only [hx, Option.some_bind] at hr
      exact ih l1 l2 (lifeInv_step s l l1 x h hx) hr

/-- C4 (amended): in every life of a session that runs to the end, the pipe reader receives
exactly one `Close` call, the pipe writer exactly two (from the decode goroutine and from
the deferred cleanup) and the player exactly one, plus one more each for the writer and the
player when `stopPlayback` was called on the session; so every resource is closed at least
once. -/
theorem session_close_counts (env : ProbeEnv) (songToPlay : String) (s : Nat)
    (steps : List LifeStep) (l : Life)
    (hrun : (Life.init env songToPlay s).run s steps = some l)
    (hfin : l.finished = true) :
    l.world.trace.count (Action.readerClose s) = 1 ∧
    l.world.trace.count (Action.writerClose s) =
      2 + (if l.world.activePlayer = none then 1 else 0) ∧
    l.world.trace.count (Action.playerClose s) =
      1 + (if l.world.activePlayer = none then 1 else 0) := by
  obtain ⟨-, h2, h3, h4⟩ := lifeInv_run s steps _ l (lifeInv_init env songToPlay s) hrun
  simp only [Life.finished, Bool.and_eq_true, decide_eq_true_eq] at hfin
  obtain ⟨⟨hm, hd⟩, -⟩ := hfin
  simp only [closeCounts, hm, hd] at h2 h3 h4
  refine ⟨?_, ?_, ?_⟩
  · simpa using h3
  · rw [h2]; simp
  · rw [h4]; simp

theorem session_close_counts_witness :
    ∃ l, (Life.init sampleEnv "song.mp3" 0).run 0 failedLife = some l ∧
      l.finished = true ∧
      l.world.trace.count (Action.readerClose 0) = 1 ∧
      l.world.trace.count (Action.writerClose 0) =
        2 + (if l.world.activePlayer = none then 1 else 0) ∧
      l.world.trace.count (Action.playerClose 0) =
        1 + (if l.world.activePlayer = none then 1 else 0) := by
  have hsome : ((Life.init sampleEnv "song.mp3" 0).run 0 failedLife).isSome = true := by
    decide
  obtain ⟨l, hl⟩ := Option.isSome_iff_exists.mp hsome
  have hmap : ((Life.init sampleEnv "song.mp3" 0).run 0 failedLife).map Life.finished =
      some true := by decide
  have hfin : l.finished = true := by
    rw [hl] at hmap
    simpa using hmap
  exact ⟨l, hl, hfin, session_close_counts sampleEnv "song.mp3" 0 failedLife l hl hfin⟩

/-! ## Theorems about the end of the progress loop -/

end MusicPlayer
